import Mathlib

/-!
# Noise gate (zazz84/Gate): block processor and envelope follower

Shallow embedding of `GateProcessor::processBlock`
(`src/Source/PluginProcessor.cpp`, lines 135-166) together with the envelope
follower it drives.

* Sample values are `float` in the source.  They are embedded as elements of an
  arbitrary linearly ordered field `K` with exact arithmetic (the definitions
  run on `ℚ`, the statements also hold on `ℝ`); rounding, infinities and NaN are
  outside the model.  What is stated about a smoothed envelope is therefore kept
  to bounds, order (never decreasing, never increasing) and the exact values of
  the 0 ms case; strict order, limits and closed forms are not claimed.
* `juce::Decibels::decibelsToGain` and `exp` are library functions; they are
  parameters (`decibelsToGain`, `expf`) of the definitions that call them.
* The class of `m_envelopeFollower[channel]` is declared in a header that is not
  part of the given source.  `processBlock` is embedded over the interface it
  uses (`setCoef`, `process`), and the follower itself is modelled from the
  specification (section 4.1).
-/

namespace Gate

variable {K σ : Type}

/-! ## Envelope follower -/

/-- Modelled from the spec: the state of one envelope follower, whose class is
declared in a header missing from the source.  Section 3: it holds the current
smoothed envelope value, the current attack coefficient, the current release
coefficient and the sample rate used to derive them. -/
structure EnvelopeFollower (K : Type) where
  envelope : K
  attackCoef : K
  releaseCoef : K
  sampleRate : K
deriving DecidableEq

/-- Modelled from the spec: the smoothing coefficient of a time constant,
`exp(-1 / (timeMs * 0.001 * sampleRate))`, clamped so that a 0 ms time constant
yields coefficient 0 rather than a division by zero (section 4.1). -/
def timeToCoefficient [LinearOrderedField K] (expf : K → K) (timeMs sampleRate : K) : K :=
  if timeMs ≤ 0 then 0 else expf (-1 / (timeMs * (1 / 1000) * sampleRate))

/-- Modelled from the spec: `setCoefficients(attackMs, releaseMs, sampleRate)`
recomputes the two smoothing coefficients and records the sample rate; the
envelope value is not touched (section 4.1, section 3). -/
def EnvelopeFollower.setCoefficients [LinearOrderedField K] (expf : K → K)
    (f : EnvelopeFollower K) (attackMs releaseMs sampleRate : K) : EnvelopeFollower K :=
  ⟨f.envelope, timeToCoefficient expf attackMs sampleRate,
    timeToCoefficient expf releaseMs sampleRate, sampleRate⟩

/-- Modelled from the spec: the two-argument call `setCoef(attack, release)` made
by `processBlock` (line 153); the follower's header is missing.  It is
`setCoefficients` at the sample rate the follower already holds. -/
def EnvelopeFollower.setCoef [LinearOrderedField K] (expf : K → K)
    (f : EnvelopeFollower K) (attackMs releaseMs : K) : EnvelopeFollower K :=
  f.setCoefficients expf attackMs releaseMs f.sampleRate

/-- Modelled from the spec: `process(target)` (section 4.1).  If `target` is
greater than the current envelope the attack coefficient applies, otherwise the
release coefficient; `envelope = target + coefficient * (envelope - target)`;
the new envelope is stored and returned. -/
def EnvelopeFollower.process [LinearOrderedField K] (f : EnvelopeFollower K) (target : K) :
    EnvelopeFollower K × K :=
  let coefficient := if target > f.envelope then f.attackCoef else f.releaseCoef
  let envelope := target + coefficient * (f.envelope - target)
  (⟨envelope, f.attackCoef, f.releaseCoef, f.sampleRate⟩, envelope)

/-- The two member functions of the follower that `processBlock` calls
(lines 153 and 160), over a follower state of type `σ`. -/
structure FollowerOps (K σ : Type) where
  setCoef : σ → K → K → σ
  process : σ → K → σ × K

/-- Modelled from the spec: the follower of section 4.1 as an implementation of
the interface used by `processBlock`. -/
def specFollower [LinearOrderedField K] (expf : K → K) : FollowerOps K (EnvelopeFollower K) :=
  ⟨fun f a r => f.setCoef expf a r, fun f t => f.process t⟩

/-! ## Block processor -/

/-- The five raw parameter values loaded at the top of `processBlock`
(lines 138-142): threshold in dB, attack in ms, release in ms, mix, volume in dB. -/
structure Params (K : Type) where
  threshold : K
  attack : K
  release : K
  mix : K
  volume : K
deriving DecidableEq

/-- A `juce::AudioBuffer<float>`: `getNumSamples()` and one sample array per
channel. -/
structure AudioBuffer (K : Type) where
  numSamples : Nat
  channels : List (List K)
deriving DecidableEq

/-- Body of the sample loop of `processBlock` (lines 157-163) at index `sample`:
read the input, step the follower with `(float)(fabsf(in) > thresholdGain)`,
overwrite the sample with `volume * ((mix * gateVolume + mixInverse) * in)`. -/
def sampleBody [LinearOrderedField K] (F : FollowerOps K σ)
    (thresholdGain mix mixInverse volume : K) (st : σ × List K) (sample : Nat) : σ × List K :=
  let x := st.2.getD sample 0
  let r := F.process st.1 (if |x| > thresholdGain then 1 else 0)
  let gateVolume := r.2
  (r.1, st.2.set sample (volume * ((mix * gateVolume + mixInverse) * x)))

/-- Body of the channel loop of `processBlock` (lines 151-164) at index
`channel`: fetch the channel's samples and follower, call `setCoef`, run the
sample loop over `0 .. samples-1`.  An index outside the follower array or the
buffer is undefined behaviour in the source and is modelled as no change. -/
def channelBody [LinearOrderedField K] (F : FollowerOps K σ)
    (thresholdGain attack release mix mixInverse volume : K)
    (st : List σ × AudioBuffer K) (channel : Nat) : List σ × AudioBuffer K :=
  match st.1[channel]?, st.2.channels[channel]? with
  | some envelopeFollower, some channelBuffer =>
    let r := (List.range st.2.numSamples).foldl
      (sampleBody F thresholdGain mix mixInverse volume)
      (F.setCoef envelopeFollower attack release, channelBuffer)
    (st.1.set channel r.1, ⟨st.2.numSamples, st.2.channels.set channel r.2⟩)
  | _, _ => st

/-- `GateProcessor::processBlock` (lines 135-166).  `decibelsToGain` is
`juce::Decibels::decibelsToGain`, `channels` is `getTotalNumOutputChannels()`,
the state is the array `m_envelopeFollower` paired with the buffer, which is
processed in place. -/
def processBlock [LinearOrderedField K] (F : FollowerOps K σ) (decibelsToGain : K → K)
    (channels : Nat) (p : Params K) (st : List σ × AudioBuffer K) : List σ × AudioBuffer K :=
  let thresholdGain := decibelsToGain p.threshold
  let attack := p.attack
  let release := p.release
  let mix := p.mix
  let volume := decibelsToGain p.volume
  let mixInverse := 1 - mix
  (List.range channels).foldl
    (channelBody F thresholdGain attack release mix mixInverse volume) st

/-! ## Derived descriptions of one channel -/

/-- The gate target of a sample: `1` when `|x| > thresholdGain`, else `0`. -/
def gateTarget [LinearOrderedField K] (thresholdGain x : K) : K :=
  if |x| > thresholdGain then 1 else 0

/-- The blend written back for input `x` at gate envelope `e`. -/
def blend [LinearOrderedField K] (mix volume e x : K) : K :=
  volume * ((mix * e + (1 - mix)) * x)

/-- Feeding a list of targets to a follower, one `process` call per target, in
order: the final follower state and the list of returned values. -/
def followerRun (F : FollowerOps K σ) : σ → List K → σ × List K
  | s, [] => (s, [])
  | s, t :: ts =>
    let r := F.process s t
    let rest := followerRun F r.1 ts
    (rest.1, r.2 :: rest.2)

/-- One channel of `processBlock`, as a function of the follower and the samples:
`setCoef` once, then the follower run on the targets of the input samples, each
sample blended with the value returned for it. -/
def processChannel [LinearOrderedField K] (F : FollowerOps K σ) (decibelsToGain : K → K)
    (p : Params K) (s : σ) (xs : List K) : σ × List K :=
  let r := followerRun F (F.setCoef s p.attack p.release)
    (xs.map (gateTarget (decibelsToGain p.threshold)))
  (r.1, List.zipWith (blend p.mix (decibelsToGain p.volume)) r.2 xs)

/-- The envelope sequence as the claim words it: `claimEnvelope .. 0` is the
envelope before the first sample, and
`envelope_n = t_n + c * (envelope_{n-1} - t_n)` with `c` the attack coefficient
when `t_n > envelope_{n-1}` and the release coefficient otherwise, where `t_n`
is `1` if `|x_n| > thresholdGain` and `0` otherwise.  `claimEnvelope .. (n+1)`
is the envelope after sample `n`. -/
def claimEnvelope [LinearOrderedField K] (attackCoef releaseCoef envelope0 thresholdGain : K)
    (xs : List K) : Nat → K
  | 0 => envelope0
  | n + 1 =>
    let t : K := if |xs.getD n 0| > thresholdGain then 1 else 0
    let prev := claimEnvelope attackCoef releaseCoef envelope0 thresholdGain xs n
    let c := if t > prev then attackCoef else releaseCoef
    t + c * (prev - t)

/-- What `processBlock` can see of channel `j`: its follower, its samples and the
block's sample count. -/
def entry (st : List σ × AudioBuffer K) (j : Nat) : Option σ × Option (List K) × Nat :=
  (st.1[j]?, st.2.channels[j]?, st.2.numSamples)

/-- The effect of one pass of the channel loop on the entry of its own channel. -/
def channelEntry [LinearOrderedField K] (F : FollowerOps K σ)
    (thresholdGain attack release mix mixInverse volume : K) :
    Option σ × Option (List K) × Nat → Option σ × Option (List K) × Nat
  | (some envelopeFollower, some channelBuffer, samples) =>
    let r := (List.range samples).foldl
      (sampleBody F thresholdGain mix mixInverse volume)
      (F.setCoef envelopeFollower attack release, channelBuffer)
    (some r.1, some r.2, samples)
  | e => e

/-- Successive `processBlock` calls with the same parameter values, each on the next
buffer handed over by the host; the follower array `m_envelopeFollower` is kept
from one call to the next.  Returns the final followers and the processed
buffers. -/
def processBlocks [LinearOrderedField K] (F : FollowerOps K σ) (decibelsToGain : K → K)
    (channels : Nat) (p : Params K) : List σ → List (AudioBuffer K) → List σ × List (AudioBuffer K)
  | fs, [] => (fs, [])
  | fs, b :: bs =>
    let r := processBlock F decibelsToGain channels p (fs, b)
    let rest := processBlocks F decibelsToGain channels p r.1 bs
    (rest.1, r.2 :: rest.2)

/-! ## Stand-ins for the library functions in executable examples -/

/-- A rational function with values in (0,1) on negative arguments, used in place
of `exp` where an example is evaluated on `ℚ`. -/
def exampleExp (x : ℚ) : ℚ := 1 / (1 - x)

/-- A decibel-to-gain table for the examples: gain 1 at 0 dB and gain 0.251 (the
gain of -12 dB, rounded) at every other argument. -/
def exampleGain (d : ℚ) : ℚ := if d = 0 then 1 else 251 / 1000

/-! ## The loops of `processBlock` -/

theorem sampleLoop_eq [LinearOrderedField K] (F : FollowerOps K σ) (thr mix vol : K)
    (rest : List K) : ∀ (s : σ) (done : List K),
    (List.range' done.length rest.length).foldl (sampleBody F thr mix (1 - mix) vol)
        (s, done ++ rest)
      = ((followerRun F s (rest.map (gateTarget thr))).1,
          done ++ List.zipWith (blend mix vol)
            (followerRun F s (rest.map (gateTarget thr))).2 rest) := by
  induction rest with
  | nil => intro s done; simp [followerRun]
  | cons x xs ih =>
    intro s done
    have h := ih (F.process s (gateTarget thr x)).1
      (done ++ [blend mix vol (F.process s (gateTarget thr x)).2 x])
    simp only [List.length_append, List.length_singleton, List.append_assoc,
      List.singleton_append] at h
    simp only [List.length_cons, List.range'_succ, List.foldl_cons, List.map_cons, followerRun,
      List.zipWith_cons_cons]
    rw [← h]
    congr 1
    have hx : (done ++ x :: xs).getD done.length 0 = x := by
      rw [List.getD_eq_getElem?_getD, List.getElem?_append_right (le_refl _)]
      simp
    have hs : ∀ v : K, (done ++ x :: xs).set done.length v = done ++ v :: xs := by
      intro v; simp
    simp only [sampleBody, hx, hs, gateTarget, blend]

theorem sampleLoop_range [LinearOrderedField K] (F : FollowerOps K σ) (thr mix vol : K)
    (s : σ) (xs : List K) :
    (List.range xs.length).foldl (sampleBody F thr mix (1 - mix) vol) (s, xs)
      = ((followerRun F s (xs.map (gateTarget thr))).1,
          List.zipWith (blend mix vol) (followerRun F s (xs.map (gateTarget thr))).2 xs) := by
  have h := sampleLoop_eq F thr mix vol xs s []
  simpa [List.range_eq_range'] using h

theorem channelBody_entry [LinearOrderedField K] (F : FollowerOps K σ)
    (thr attack release mix mixInverse vol : K) (st : List σ × AudioBuffer K) (c j : Nat) :
    entry (channelBody F thr attack release mix mixInverse vol st c) j
      = if j = c then channelEntry F thr attack release mix mixInverse vol (entry st c)
        else entry st j := by
  unfold channelBody entry
  cases hf : st.1[c]? with
  | none => by_cases hjc : j = c <;> simp [hjc, hf, channelEntry]
  | some ef =>
    cases hb : st.2.channels[c]? with
    | none => by_cases hjc : j = c <;> simp [hjc, hf, hb, channelEntry]
    | some cb =>
      have hcf : c < st.1.length := (List.getElem?_eq_some.1 hf).1
      have hcb : c < st.2.channels.length := (List.getElem?_eq_some.1 hb).1
      by_cases hjc : j = c
      · subst hjc
        simp [channelEntry, List.getElem?_set, hcf, hcb]
      · have hcj : c ≠ j := fun h => hjc h.symm
        simp [hjc, List.getElem?_set, hcj]

theorem channelLoop_entry [LinearOrderedField K] (F : FollowerOps K σ)
    (thr attack release mix mixInverse vol : K) (j : Nat) :
    ∀ (n k : Nat) (st : List σ × AudioBuffer K),
    entry ((List.range' k n).foldl (channelBody F thr attack release mix mixInverse vol) st) j
      = if k ≤ j ∧ j < k + n
        then channelEntry F thr attack release mix mixInverse vol (entry st j)
        else entry st j := by
  intro n
  induction n with
  | zero =>
    intro k st
    have h0 : ¬ (k ≤ j ∧ j < k + 0) := by omega
    rw [if_neg h0]
    rfl
  | succ n ih =>
    intro k st
    rw [List.range'_succ, List.foldl_cons, ih (k + 1), channelBody_entry]
    by_cases hjk : j = k
    · subst hjk
      simp
    · by_cases h1 : k + 1 ≤ j ∧ j < k + 1 + n
      · have h2 : k ≤ j ∧ j < k + (n + 1) := ⟨by omega, by omega⟩
        simp [h1, h2, hjk]
      · have h2 : ¬ (k ≤ j ∧ j < k + (n + 1)) := by omega
        simp [h1, h2, hjk]

/-- What `processBlock` does to channel `j`, in terms of that channel alone: the
channels below `getTotalNumOutputChannels()` get one pass of the channel loop,
the others are left as they are. -/
theorem processBlock_entry [LinearOrderedField K] (F : FollowerOps K σ) (decibelsToGain : K → K)
    (channels : Nat) (p : Params K) (st : List σ × AudioBuffer K) (j : Nat) :
    entry (processBlock F decibelsToGain channels p st) j
      = if j < channels
        then channelEntry F (decibelsToGain p.threshold) p.attack p.release p.mix (1 - p.mix)
          (decibelsToGain p.volume) (entry st j)
        else entry st j := by
  unfold processBlock
  simp only [List.range_eq_range']
  rw [channelLoop_entry]
  simp

/-- One pass of the channel loop over a channel whose sample array has the
block's sample count is `processChannel`. -/
theorem channelEntry_eq [LinearOrderedField K] (F : FollowerOps K σ) (decibelsToGain : K → K)
    (p : Params K) (s : σ) (xs : List K) :
    channelEntry F (decibelsToGain p.threshold) p.attack p.release p.mix (1 - p.mix)
        (decibelsToGain p.volume) (some s, some xs, xs.length)
      = (some (processChannel F decibelsToGain p s xs).1,
          some (processChannel F decibelsToGain p s xs).2, xs.length) := by
  simp only [channelEntry, sampleLoop_range, processChannel]

/-- The channel-`j` result of `processBlock` on a well-formed channel. -/
theorem processBlock_channel [LinearOrderedField K] (F : FollowerOps K σ)
    (decibelsToGain : K → K) (channels : Nat) (p : Params K) (st : List σ × AudioBuffer K)
    (j : Nat) (s : σ) (xs : List K) (hj : j < channels) (hf : st.1[j]? = some s)
    (hb : st.2.channels[j]? = some xs) (hlen : xs.length = st.2.numSamples) :
    (processBlock F decibelsToGain channels p st).1[j]?
        = some (processChannel F decibelsToGain p s xs).1
      ∧ (processBlock F decibelsToGain channels p st).2.channels[j]?
        = some (processChannel F decibelsToGain p s xs).2
      ∧ (processBlock F decibelsToGain channels p st).2.numSamples = st.2.numSamples := by
  have h := processBlock_entry F decibelsToGain channels p st j
  rw [if_pos hj] at h
  have he : entry st j = (some s, some xs, xs.length) := by
    simp [entry, hf, hb, hlen]
  rw [he, channelEntry_eq] at h
  simp only [entry, Prod.mk.injEq] at h
  exact ⟨h.1, h.2.1, by rw [h.2.2, hlen]⟩

theorem channelEntry_samples [LinearOrderedField K] (F : FollowerOps K σ)
    (thr attack release mix mixInverse vol : K) (e : Option σ × Option (List K) × Nat) :
    (channelEntry F thr attack release mix mixInverse vol e).2.2 = e.2.2 := by
  obtain ⟨a, b, n⟩ := e
  cases a <;> cases b <;> rfl

theorem channelEntry_no_samples [LinearOrderedField K] (F : FollowerOps K σ)
    (thr attack release mix mixInverse vol : K) (a : Option σ) (b : Option (List K)) :
    channelEntry F thr attack release mix mixInverse vol (a, b, 0)
      = (if b.isSome then a.map (fun s => F.setCoef s attack release) else a, b, 0) := by
  cases a <;> cases b <;> rfl

theorem processBlock_numSamples [LinearOrderedField K] (F : FollowerOps K σ)
    (decibelsToGain : K → K) (channels : Nat) (p : Params K) (st : List σ × AudioBuffer K) :
    (processBlock F decibelsToGain channels p st).2.numSamples = st.2.numSamples := by
  have h := congrArg (fun e => e.2.2) (processBlock_entry F decibelsToGain channels p st 0)
  by_cases hc : 0 < channels
  · simpa [hc, channelEntry_samples, entry] using h
  · simpa [hc, entry] using h

/-- A block of 0 samples leaves the buffer as it is, for any follower. -/
theorem processBlock_no_samples [LinearOrderedField K] (F : FollowerOps K σ)
    (decibelsToGain : K → K) (channels : Nat) (p : Params K) (fs : List σ)
    (b : AudioBuffer K) (hb : b.numSamples = 0) :
    (processBlock F decibelsToGain channels p (fs, b)).2 = b := by
  have hn := processBlock_numSamples F decibelsToGain channels p (fs, b)
  have hc : (processBlock F decibelsToGain channels p (fs, b)).2.channels = b.channels := by
    apply List.ext_getElem?
    intro i
    have h := congrArg (fun e => e.2.1) (processBlock_entry F decibelsToGain channels p (fs, b) i)
    by_cases hi : i < channels
    · simpa [hi, entry, hb, channelEntry_no_samples] using h
    · simpa [hi, entry] using h
  generalize processBlock F decibelsToGain channels p (fs, b) = res at hn hc
  obtain ⟨rf, rn, rc⟩ := res
  obtain ⟨bn, bc⟩ := b
  simp only at hn hc
  rw [hn, hc]

/-! ## Facts about follower runs, for any follower -/

theorem followerRun_length (F : FollowerOps K σ) (ts : List K) :
    ∀ s : σ, (followerRun F s ts).2.length = ts.length := by
  induction ts with
  | nil => intro s; rfl
  | cons t ts ih => intro s; simp [followerRun, ih]

theorem followerRun_append (F : FollowerOps K σ) (as bs : List K) :
    ∀ s : σ, followerRun F s (as ++ bs)
      = ((followerRun F (followerRun F s as).1 bs).1,
          (followerRun F s as).2 ++ (followerRun F (followerRun F s as).1 bs).2) := by
  induction as with
  | nil => intro s; simp [followerRun]
  | cons a as ih => intro s; simp [followerRun, ih]

theorem zipWith_ignore_left {α β γ : Type} (g : β → γ) :
    ∀ (es : List α) (xs : List β), es.length = xs.length →
      List.zipWith (fun _ x => g x) es xs = xs.map g := by
  intro es
  induction es with
  | nil => intro xs h; cases xs with
    | nil => rfl
    | cons x xs => simp at h
  | cons e es ih => intro xs h; cases xs with
    | nil => simp at h
    | cons x xs =>
      simp only [List.length_cons, add_left_inj] at h
      simp [ih xs h]

theorem map_gateTarget_zero [LinearOrderedField K] (thr : K) (hthr : 0 ≤ thr) (xs : List K)
    (hzero : ∀ x ∈ xs, x = 0) :
    xs.map (gateTarget thr) = List.replicate xs.length 0 := by
  induction xs with
  | nil => rfl
  | cons x xs ih =>
    have hx : x = 0 := hzero x (List.mem_cons_self _ _)
    have hrest : ∀ y ∈ xs, y = 0 := fun y hy => hzero y (List.mem_cons_of_mem _ hy)
    have ht : gateTarget thr x = 0 := by
      simp [gateTarget, hx, not_lt.2 hthr]
    simp [ht, ih hrest, List.replicate_succ]

theorem zipWith_zero_right [LinearOrderedField K] (mix vol : K) :
    ∀ (es xs : List K), es.length = xs.length → (∀ x ∈ xs, x = 0) →
      List.zipWith (blend mix vol) es xs = List.replicate xs.length 0 := by
  intro es
  induction es with
  | nil => intro xs h _; cases xs with
    | nil => rfl
    | cons x xs => simp at h
  | cons e es ih => intro xs h hz; cases xs with
    | nil => simp at h
    | cons x xs =>
      simp only [List.length_cons, add_left_inj] at h
      have hx : x = 0 := hz x (List.mem_cons_self _ _)
      have hrest : ∀ y ∈ xs, y = 0 := fun y hy => hz y (List.mem_cons_of_mem _ hy)
      simp [ih xs h hrest, hx, blend, List.replicate_succ]

/-! ## Claims that hold for any follower behind the interface -/

/-- C3.  With mix = 0, for every follower implementation and follower state,
every threshold, attack, release and volume and every input block, each output
sample of a processed channel is `volumeGain * sample`. -/
theorem processBlock_mix_zero_bypass [LinearOrderedField K] (F : FollowerOps K σ)
    (decibelsToGain : K → K) (channels : Nat) (p : Params K) (st : List σ × AudioBuffer K)
    (j : Nat) (s : σ) (xs : List K) (hmix : p.mix = 0) (hj : j < channels)
    (hf : st.1[j]? = some s) (hb : st.2.channels[j]? = some xs)
    (hlen : xs.length = st.2.numSamples) :
    (processBlock F decibelsToGain channels p st).2.channels[j]?
      = some (xs.map (fun x => decibelsToGain p.volume * x)) := by
  rw [(processBlock_channel F decibelsToGain channels p st j s xs hj hf hb hlen).2.1]
  congr 1
  simp only [processChannel]
  have hbl : blend p.mix (decibelsToGain p.volume)
      = fun (_ : K) x => (fun y => decibelsToGain p.volume * y) x := by
    funext e x
    simp [blend, hmix]
  rw [hbl]
  apply zipWith_ignore_left
  rw [followerRun_length, List.length_map]

/-- C4.  A processed channel whose input samples are all zero comes out all
zero, for every follower state, attack, release, mix and volume, whenever the
threshold gain is non-negative; and the follower of that channel has then been
fed the target 0 at every sample. -/
theorem processBlock_silence [LinearOrderedField K] (F : FollowerOps K σ)
    (decibelsToGain : K → K) (channels : Nat) (p : Params K) (st : List σ × AudioBuffer K)
    (j : Nat) (s : σ) (xs : List K) (hzero : ∀ x ∈ xs, x = 0)
    (hthr : 0 ≤ decibelsToGain p.threshold) (hj : j < channels)
    (hf : st.1[j]? = some s) (hb : st.2.channels[j]? = some xs)
    (hlen : xs.length = st.2.numSamples) :
    (processBlock F decibelsToGain channels p st).2.channels[j]?
        = some (List.replicate xs.length 0)
      ∧ (processBlock F decibelsToGain channels p st).1[j]?
        = some (followerRun F (F.setCoef s p.attack p.release)
            (List.replicate xs.length 0)).1 := by
  have h := processBlock_channel F decibelsToGain channels p st j s xs hj hf hb hlen
  rw [h.1, h.2.1]
  simp only [processChannel, map_gateTarget_zero _ hthr xs hzero]
  refine ⟨?_, trivial⟩
  congr 1
  apply zipWith_zero_right _ _ _ _ _ hzero
  rw [followerRun_length, List.length_replicate]

/-- C5.  Channel independence: two calls of `processBlock` with the same
parameters on states that agree on channel `j` (same follower, same samples,
same sample count) leave the same follower and the same samples on channel `j`,
whatever the other channels and their followers are. -/
theorem processBlock_channel_independent [LinearOrderedField K] (F : FollowerOps K σ)
    (decibelsToGain : K → K) (channels : Nat) (p : Params K)
    (st1 st2 : List σ × AudioBuffer K) (j : Nat)
    (hf : st1.1[j]? = st2.1[j]?) (hb : st1.2.channels[j]? = st2.2.channels[j]?)
    (hn : st1.2.numSamples = st2.2.numSamples) :
    (processBlock F decibelsToGain channels p st1).1[j]?
        = (processBlock F decibelsToGain channels p st2).1[j]?
      ∧ (processBlock F decibelsToGain channels p st1).2.channels[j]?
        = (processBlock F decibelsToGain channels p st2).2.channels[j]? := by
  have h1 := processBlock_entry F decibelsToGain channels p st1 j
  have h2 := processBlock_entry F decibelsToGain channels p st2 j
  have he : entry st1 j = entry st2 j := by simp [entry, hf, hb, hn]
  rw [he, ← h2] at h1
  simp only [entry, Prod.mk.injEq] at h1
  exact ⟨h1.1, h1.2.1⟩

/-! ## The follower of the specification -/

theorem claimEnvelope_cons [LinearOrderedField K] (ac rc e0 thr x : K) (xs : List K) (n : Nat) :
    claimEnvelope ac rc e0 thr (x :: xs) (n + 1)
      = claimEnvelope ac rc
          (gateTarget thr x + (if gateTarget thr x > e0 then ac else rc) * (e0 - gateTarget thr x))
          thr xs n := by
  induction n with
  | zero => simp [claimEnvelope, gateTarget]
  | succ n ih =>
    rw [claimEnvelope, ih]
    simp [claimEnvelope]

theorem specRun_claimEnvelope [LinearOrderedField K] (expf : K → K) (thr : K) (xs : List K) :
    ∀ f : EnvelopeFollower K,
    (followerRun (specFollower expf) f (xs.map (gateTarget thr))).1
        = ⟨claimEnvelope f.attackCoef f.releaseCoef f.envelope thr xs xs.length,
            f.attackCoef, f.releaseCoef, f.sampleRate⟩
      ∧ ∀ n, n < xs.length →
        (followerRun (specFollower expf) f (xs.map (gateTarget thr))).2[n]?
          = some (claimEnvelope f.attackCoef f.releaseCoef f.envelope thr xs (n + 1)) := by
  induction xs with
  | nil =>
    intro f
    exact ⟨rfl, fun n hn => absurd hn (Nat.not_lt_zero n)⟩
  | cons x xs ih =>
    intro f
    have h := ih ((specFollower expf).process f (gateTarget thr x)).1
    simp only [specFollower, EnvelopeFollower.process] at h
    simp only [List.map_cons, followerRun, List.length_cons, claimEnvelope_cons]
    simp only [specFollower, EnvelopeFollower.process]
    refine ⟨h.1, ?_⟩
    intro n hn
    cases n with
    | zero => simp [claimEnvelope]
    | succ m =>
      have hm : m < xs.length := by omega
      simpa using h.2 m hm

theorem specRun_zero_coef [LinearOrderedField K] (expf : K → K) (ts : List K) :
    ∀ f : EnvelopeFollower K, f.attackCoef = 0 → f.releaseCoef = 0 →
      (followerRun (specFollower expf) f ts).2 = ts := by
  induction ts with
  | nil => intro f _ _; rfl
  | cons t ts ih =>
    intro f ha hr
    have h := ih ((specFollower expf).process f t).1 ha hr
    simp only [followerRun, h]
    simp [specFollower, EnvelopeFollower.process, ha, hr]

theorem zipWith_target_self [LinearOrderedField K] (thr : K) (xs : List K) :
    List.zipWith (blend 1 1) (xs.map (gateTarget thr)) xs
      = xs.map (fun x => if |x| > thr then x else 0) := by
  induction xs with
  | nil => rfl
  | cons x xs ih =>
    simp only [List.map_cons, List.zipWith_cons_cons, ih]
    congr 1
    by_cases h : |x| > thr <;> simp [blend, gateTarget, h]

theorem process_unit_interval [LinearOrderedField K] (f : EnvelopeFollower K) (t : K)
    (hac : 0 ≤ f.attackCoef ∧ f.attackCoef < 1) (hrc : 0 ≤ f.releaseCoef ∧ f.releaseCoef < 1)
    (he : 0 ≤ f.envelope ∧ f.envelope ≤ 1) (ht : t = 0 ∨ t = 1) :
    0 ≤ (f.process t).2 ∧ (f.process t).2 ≤ 1 := by
  obtain ⟨ha0, ha1⟩ := hac
  obtain ⟨hr0, hr1⟩ := hrc
  obtain ⟨he0, he1⟩ := he
  simp only [EnvelopeFollower.process]
  rcases ht with ht | ht
  · subst ht
    rw [if_neg (not_lt.2 he0)]
    constructor
    · nlinarith
    · nlinarith
  · subst ht
    by_cases h : (1 : K) > f.envelope
    · rw [if_pos h]
      constructor
      · nlinarith
      · nlinarith
    · rw [if_neg h]
      have h1 : f.envelope = 1 := le_antisymm he1 (not_lt.1 h)
      rw [h1]
      simp

theorem specRun_unit_interval [LinearOrderedField K] (expf : K → K) (ts : List K) :
    ∀ f : EnvelopeFollower K,
      (0 ≤ f.attackCoef ∧ f.attackCoef < 1) → (0 ≤ f.releaseCoef ∧ f.releaseCoef < 1) →
      (0 ≤ f.envelope ∧ f.envelope ≤ 1) → (∀ t ∈ ts, t = 0 ∨ t = 1) →
      (∀ v ∈ (followerRun (specFollower expf) f ts).2, 0 ≤ v ∧ v ≤ 1)
        ∧ 0 ≤ (followerRun (specFollower expf) f ts).1.envelope
        ∧ (followerRun (specFollower expf) f ts).1.envelope ≤ 1 := by
  induction ts with
  | nil =>
    intro f _ _ he _
    exact ⟨fun v hv => by simp [followerRun] at hv, he.1, he.2⟩
  | cons t ts ih =>
    intro f hac hrc he hts
    have ht : t = 0 ∨ t = 1 := hts t (List.mem_cons_self _ _)
    have hrest : ∀ u ∈ ts, u = 0 ∨ u = 1 := fun u hu => hts u (List.mem_cons_of_mem _ hu)
    have hp := process_unit_interval f t hac hrc he ht
    have h := ih ((specFollower expf).process f t).1 hac hrc hp hrest
    simp only [followerRun, List.mem_cons]
    refine ⟨?_, h.2.1, h.2.2⟩
    intro v hv
    rcases hv with hv | hv
    · rw [hv]; exact hp
    · exact h.1 v hv

theorem map_target_mem [LinearOrderedField K] (thr : K) (xs : List K) :
    ∀ t ∈ xs.map (fun x => if |x| > thr then (1 : K) else 0), t = 0 ∨ t = 1 := by
  intro t ht
  rw [List.mem_map] at ht
  obtain ⟨x, _, hx⟩ := ht
  by_cases h : |x| > thr
  · rw [if_pos h] at hx; exact Or.inr hx.symm
  · rw [if_neg h] at hx; exact Or.inl hx.symm

theorem specRun_fields [LinearOrderedField K] (expf : K → K) (ts : List K) :
    ∀ f : EnvelopeFollower K,
      (followerRun (specFollower expf) f ts).1.attackCoef = f.attackCoef
        ∧ (followerRun (specFollower expf) f ts).1.releaseCoef = f.releaseCoef
        ∧ (followerRun (specFollower expf) f ts).1.sampleRate = f.sampleRate := by
  induction ts with
  | nil => intro f; exact ⟨rfl, rfl, rfl⟩
  | cons t ts ih =>
    intro f
    have h := ih ((specFollower expf).process f t).1
    simpa [followerRun, specFollower, EnvelopeFollower.process] using h

theorem setCoef_after_run [LinearOrderedField K] (expf : K → K) (a r : K)
    (ef : EnvelopeFollower K) (ts : List K) :
    (specFollower expf).setCoef
        (followerRun (specFollower expf) ((specFollower expf).setCoef ef a r) ts).1 a r
      = (followerRun (specFollower expf) ((specFollower expf).setCoef ef a r) ts).1 := by
  have h := specRun_fields expf ts ((specFollower expf).setCoef ef a r)
  generalize followerRun (specFollower expf) ((specFollower expf).setCoef ef a r) ts = res at h
  obtain ⟨⟨e, ac, rc, sr⟩, out⟩ := res
  simp only [specFollower, EnvelopeFollower.setCoef, EnvelopeFollower.setCoefficients] at h ⊢
  obtain ⟨h1, h2, h3⟩ := h
  subst h3
  rw [← h1, ← h2]

theorem processChannel_append [LinearOrderedField K] (expf decibelsToGain : K → K)
    (p : Params K) (ef : EnvelopeFollower K) (xa xb : List K) :
    processChannel (specFollower expf) decibelsToGain p ef (xa ++ xb)
      = ((processChannel (specFollower expf) decibelsToGain p
            (processChannel (specFollower expf) decibelsToGain p ef xa).1 xb).1,
          (processChannel (specFollower expf) decibelsToGain p ef xa).2
            ++ (processChannel (specFollower expf) decibelsToGain p
              (processChannel (specFollower expf) decibelsToGain p ef xa).1 xb).2) := by
  simp only [processChannel, List.map_append, followerRun_append, setCoef_after_run]
  rw [List.zipWith_append]
  rw [followerRun_length, List.length_map]

theorem map_gateTarget_one [LinearOrderedField K] (thr : K) (xs : List K)
    (habove : ∀ x ∈ xs, |x| > thr) :
    xs.map (gateTarget thr) = List.replicate xs.length 1 := by
  induction xs with
  | nil => rfl
  | cons x xs ih =>
    have hx : |x| > thr := habove x (List.mem_cons_self _ _)
    have hrest : ∀ y ∈ xs, |y| > thr := fun y hy => habove y (List.mem_cons_of_mem _ hy)
    have ht : gateTarget thr x = 1 := by simp [gateTarget, hx]
    simp [ht, ih hrest, List.replicate_succ]

theorem processBlock_no_samples_envelope [LinearOrderedField K] (expf decibelsToGain : K → K)
    (channels : Nat) (p : Params K) (fs : List (EnvelopeFollower K))
    (b : AudioBuffer K) (hb : b.numSamples = 0) :
    (processBlock (specFollower expf) decibelsToGain channels p (fs, b)).1.map
        EnvelopeFollower.envelope
      = fs.map EnvelopeFollower.envelope := by
  apply List.ext_getElem?
  intro i
  have h := congrArg (fun e => e.1)
    (processBlock_entry (specFollower expf) decibelsToGain channels p (fs, b) i)
  simp only [entry] at h
  rw [List.getElem?_map, List.getElem?_map, h]
  by_cases hi : i < channels
  · rw [if_pos hi, hb, channelEntry_no_samples]
    cases hbi : b.channels[i]? <;> cases hfi : fs[i]? <;>
      simp [specFollower, EnvelopeFollower.setCoef, EnvelopeFollower.setCoefficients]
  · rw [if_neg hi]

theorem timeToCoefficient_zero [LinearOrderedField K] (expf : K → K) (sr : K) :
    timeToCoefficient expf 0 sr = 0 := by
  simp [timeToCoefficient]

theorem timeToCoefficient_unit [LinearOrderedField K] (expf : K → K)
    (hexp : ∀ x, x < 0 → 0 ≤ expf x ∧ expf x ≤ 1) (timeMs sr : K) (hsr : 0 < sr) :
    0 ≤ timeToCoefficient expf timeMs sr ∧ timeToCoefficient expf timeMs sr ≤ 1 := by
  by_cases ht : timeMs ≤ 0
  · simp [timeToCoefficient, ht]
  · have hpos : 0 < timeMs := not_le.1 ht
    have hden : 0 < timeMs * (1 / 1000) * sr := by positivity
    have harg : -1 / (timeMs * (1 / 1000) * sr) < 0 := by
      apply div_neg_of_neg_of_pos _ hden
      norm_num
    simp only [timeToCoefficient, if_neg ht]
    exact hexp _ harg

theorem process_one_bounds [LinearOrderedField K] (f : EnvelopeFollower K)
    (hac : 0 ≤ f.attackCoef ∧ f.attackCoef ≤ 1) (he : f.envelope ≤ 1) :
    f.envelope ≤ (f.process 1).2 ∧ (f.process 1).2 ≤ 1 := by
  obtain ⟨ha0, ha1⟩ := hac
  simp only [EnvelopeFollower.process]
  by_cases h : (1 : K) > f.envelope
  · rw [if_pos h]
    constructor
    · nlinarith
    · nlinarith
  · rw [if_neg h]
    have h1 : f.envelope = 1 := le_antisymm he (not_lt.1 h)
    rw [h1]
    simp

theorem process_zero_bounds [LinearOrderedField K] (f : EnvelopeFollower K)
    (hrc : 0 ≤ f.releaseCoef ∧ f.releaseCoef ≤ 1) (he : 0 ≤ f.envelope) :
    0 ≤ (f.process 0).2 ∧ (f.process 0).2 ≤ f.envelope := by
  obtain ⟨hr0, hr1⟩ := hrc
  simp only [EnvelopeFollower.process]
  rw [if_neg (not_lt.2 he)]
  constructor
  · nlinarith
  · nlinarith

theorem specRun_ones_chain [LinearOrderedField K] (expf : K → K) (n : Nat) :
    ∀ f : EnvelopeFollower K, (0 ≤ f.attackCoef ∧ f.attackCoef ≤ 1) → f.envelope ≤ 1 →
      List.Chain (· ≤ ·) f.envelope
          (followerRun (specFollower expf) f (List.replicate n 1)).2
        ∧ ∀ v ∈ (followerRun (specFollower expf) f (List.replicate n 1)).2, v ≤ 1 := by
  induction n with
  | zero =>
    intro f _ _
    exact ⟨List.Chain.nil, fun v hv => by simp [followerRun] at hv⟩
  | succ n ih =>
    intro f hac he
    have hp := process_one_bounds f hac he
    have h := ih ((specFollower expf).process f 1).1 hac hp.2
    simp only [List.replicate_succ, followerRun, List.mem_cons]
    refine ⟨List.Chain.cons hp.1 h.1, ?_⟩
    intro v hv
    rcases hv with hv | hv
    · rw [hv]; exact hp.2
    · exact h.2 v hv

theorem specRun_zeros_chain [LinearOrderedField K] (expf : K → K) (n : Nat) :
    ∀ f : EnvelopeFollower K, (0 ≤ f.releaseCoef ∧ f.releaseCoef ≤ 1) → 0 ≤ f.envelope →
      List.Chain (· ≥ ·) f.envelope
          (followerRun (specFollower expf) f (List.replicate n 0)).2
        ∧ ∀ v ∈ (followerRun (specFollower expf) f (List.replicate n 0)).2, 0 ≤ v := by
  induction n with
  | zero =>
    intro f _ _
    exact ⟨List.Chain.nil, fun v hv => by simp [followerRun] at hv⟩
  | succ n ih =>
    intro f hrc he
    have hp := process_zero_bounds f hrc he
    have h := ih ((specFollower expf).process f 0).1 hrc hp.1
    simp only [List.replicate_succ, followerRun, List.mem_cons]
    refine ⟨List.Chain.cons hp.2 h.1, ?_⟩
    intro v hv
    rcases hv with hv | hv
    · rw [hv]; exact hp.1
    · exact h.2 v hv

theorem specRun_ones_zero_coef [LinearOrderedField K] (expf : K → K) (n : Nat) :
    ∀ f : EnvelopeFollower K, f.attackCoef = 0 → f.envelope ≤ 1 →
      (followerRun (specFollower expf) f (List.replicate n 1)).2 = List.replicate n 1 := by
  induction n with
  | zero => intro f _ _; rfl
  | succ n ih =>
    intro f hac he
    have hv : (f.process 1).2 = 1 := by
      simp only [EnvelopeFollower.process, hac]
      by_cases h : (1 : K) > f.envelope
      · rw [if_pos h]; simp
      · rw [if_neg h, le_antisymm he (not_lt.1 h)]; simp
    have h := ih ((specFollower expf).process f 1).1 hac
      (by show (f.process 1).2 ≤ 1; rw [hv])
    simp only [List.replicate_succ, followerRun, h]
    congr 1

theorem specRun_zeros_zero_coef [LinearOrderedField K] (expf : K → K) (n : Nat) :
    ∀ f : EnvelopeFollower K, f.releaseCoef = 0 → 0 ≤ f.envelope →
      (followerRun (specFollower expf) f (List.replicate n 0)).2 = List.replicate n 0 := by
  induction n with
  | zero => intro f _ _; rfl
  | succ n ih =>
    intro f hrc he
    have hv : (f.process 0).2 = 0 := by
      simp only [EnvelopeFollower.process, hrc]
      rw [if_neg (not_lt.2 he)]
      simp
    have h := ih ((specFollower expf).process f 0).1 hrc
      (by show 0 ≤ (f.process 0).2; rw [hv])
    simp only [List.replicate_succ, followerRun, h]
    congr 1

theorem specRun_ones_envelope [LinearOrderedField K] (expf : K → K) (n : Nat) :
    ∀ f : EnvelopeFollower K, 0 ≤ f.attackCoef → f.envelope ≤ 1 →
      (followerRun (specFollower expf) f (List.replicate n 1)).1.envelope
        = 1 - f.attackCoef ^ n * (1 - f.envelope) := by
  induction n with
  | zero => intro f _ _; simp [followerRun]
  | succ n ih =>
    intro f hac he
    have hstep : (f.process 1).2 = 1 - f.attackCoef * (1 - f.envelope) := by
      simp only [EnvelopeFollower.process]
      by_cases h : (1 : K) > f.envelope
      · rw [if_pos h]; ring
      · rw [if_neg h, le_antisymm he (not_lt.1 h)]; simp
    have hle : (f.process 1).2 ≤ 1 := by
      rw [hstep]
      have := mul_nonneg hac (sub_nonneg.2 he)
      linarith
    have h := ih ((specFollower expf).process f 1).1 hac hle
    simp only [List.replicate_succ, followerRun, h]
    show 1 - f.attackCoef ^ n * (1 - (f.process 1).2) = _
    rw [hstep, pow_succ]
    ring

theorem processBlock_above_threshold [LinearOrderedField K] (expf decibelsToGain : K → K)
    (channels : Nat) (p : Params K) (st : List (EnvelopeFollower K) × AudioBuffer K)
    (j : Nat) (ef : EnvelopeFollower K) (xs : List K) (hj : j < channels)
    (hf : st.1[j]? = some ef) (hb : st.2.channels[j]? = some xs)
    (hlen : xs.length = st.2.numSamples)
    (habove : ∀ x ∈ xs, |x| > decibelsToGain p.threshold) :
    (processBlock (specFollower expf) decibelsToGain channels p st).1[j]?
        = some (followerRun (specFollower expf) (ef.setCoef expf p.attack p.release)
            (List.replicate xs.length 1)).1
      ∧ (processBlock (specFollower expf) decibelsToGain channels p st).2.channels[j]?
        = some (List.zipWith
            (fun e x => decibelsToGain p.volume * ((p.mix * e + (1 - p.mix)) * x))
            (followerRun (specFollower expf) (ef.setCoef expf p.attack p.release)
              (List.replicate xs.length 1)).2 xs) := by
  have h := processBlock_channel (specFollower expf) decibelsToGain channels p st j ef xs
    hj hf hb hlen
  rw [h.1, h.2.1]
  simp only [processChannel, map_gateTarget_one _ xs habove]
  exact ⟨rfl, rfl⟩

theorem processBlocks_above_threshold [LinearOrderedField K] (expf decibelsToGain : K → K)
    (channels : Nat) (p : Params K) (j : Nat) (hj : j < channels)
    (blocks : List (AudioBuffer K)) :
    ∀ (fs : List (EnvelopeFollower K)) (ef : EnvelopeFollower K), fs[j]? = some ef →
      0 ≤ timeToCoefficient expf p.attack ef.sampleRate → ef.envelope ≤ 1 →
      (∀ b ∈ blocks, ∃ xs, b.channels[j]? = some xs ∧ xs.length = b.numSamples
        ∧ ∀ x ∈ xs, |x| > decibelsToGain p.threshold) →
      ∃ g, (processBlocks (specFollower expf) decibelsToGain channels p fs blocks).1[j]? = some g
        ∧ g.sampleRate = ef.sampleRate
        ∧ g.envelope = 1 - timeToCoefficient expf p.attack ef.sampleRate
            ^ (blocks.map AudioBuffer.numSamples).sum * (1 - ef.envelope) := by
  induction blocks with
  | nil =>
    intro fs ef hf _ _ _
    exact ⟨ef, hf, rfl, by simp⟩
  | cons b bs ih =>
    intro fs ef hf hc he hbl
    obtain ⟨xs, hb, hlen, habove⟩ := hbl b (List.mem_cons_self _ _)
    have hrest : ∀ b' ∈ bs, ∃ xs, b'.channels[j]? = some xs ∧ xs.length = b'.numSamples
        ∧ ∀ x ∈ xs, |x| > decibelsToGain p.threshold :=
      fun b' hb' => hbl b' (List.mem_cons_of_mem _ hb')
    have h1 := (processBlock_above_threshold expf decibelsToGain channels p (fs, b) j ef xs
      hj hf hb hlen habove).1
    have hfld := specRun_fields expf (List.replicate xs.length 1)
      (ef.setCoef expf p.attack p.release)
    have henv := specRun_ones_envelope expf xs.length (ef.setCoef expf p.attack p.release)
      hc he
    simp only [EnvelopeFollower.setCoef, EnvelopeFollower.setCoefficients] at hfld henv
    have hsr : (followerRun (specFollower expf) (ef.setCoef expf p.attack p.release)
        (List.replicate xs.length 1)).1.sampleRate = ef.sampleRate := hfld.2.2
    have hnn : 0 ≤ timeToCoefficient expf p.attack ef.sampleRate ^ xs.length
        * (1 - ef.envelope) := mul_nonneg (pow_nonneg hc _) (by linarith)
    obtain ⟨g, hg, hgsr, hgenv⟩ := ih _ _ h1 (by rw [hsr]; exact hc)
      (by simp only [EnvelopeFollower.setCoef, EnvelopeFollower.setCoefficients, henv]
          linarith) hrest
    refine ⟨g, hg, hgsr.trans hsr, ?_⟩
    rw [hgenv, hsr]
    simp only [EnvelopeFollower.setCoef, EnvelopeFollower.setCoefficients, henv,
      List.map_cons, List.sum_cons, ← hlen, pow_add]
    ring

/-! ## Claims about `processBlock` driving the follower of the specification -/

/-- C1.  For every parameter snapshot, every processed channel `j` and every
input block, `processBlock` leaves at sample `n` of the channel the value
`volumeGain * ((mix * e_n + (1 - mix)) * x_n)`, where `x_n` is the input sample and
`e_n` the value returned by the `n`-th `process` call of the channel's follower
after one `setCoef(attack, release)` call; the follower is stepped once per
sample in sample order, and `e_n` obeys
`envelope_n = t_n + c * (envelope_{n-1} - t_n)` with `t_n = 1` if
`|x_n| > thresholdGain` and `0` otherwise, `c` the attack coefficient when
`t_n > envelope_{n-1}` and the release coefficient otherwise. -/
theorem processBlock_contract [LinearOrderedField K] (expf decibelsToGain : K → K)
    (channels : Nat) (p : Params K) (st : List (EnvelopeFollower K) × AudioBuffer K)
    (j : Nat) (ef : EnvelopeFollower K) (xs : List K) (hj : j < channels)
    (hf : st.1[j]? = some ef) (hb : st.2.channels[j]? = some xs)
    (hlen : xs.length = st.2.numSamples) :
    (processBlock (specFollower expf) decibelsToGain channels p st).2.channels[j]?
        = some (List.zipWith
            (fun e x => decibelsToGain p.volume * ((p.mix * e + (1 - p.mix)) * x))
            (followerRun (specFollower expf) (ef.setCoef expf p.attack p.release)
              (xs.map (fun x => if |x| > decibelsToGain p.threshold then 1 else 0))).2 xs)
      ∧ (∃ out, (processBlock (specFollower expf) decibelsToGain channels p st).2.channels[j]?
            = some out ∧ out.length = xs.length ∧
          ∀ n x, xs[n]? = some x →
            out[n]? = some (decibelsToGain p.volume *
              ((p.mix * claimEnvelope (timeToCoefficient expf p.attack ef.sampleRate)
                  (timeToCoefficient expf p.release ef.sampleRate) ef.envelope
                  (decibelsToGain p.threshold) xs (n + 1) + (1 - p.mix)) * x)))
      ∧ (processBlock (specFollower expf) decibelsToGain channels p st).1[j]?
        = some ⟨claimEnvelope (timeToCoefficient expf p.attack ef.sampleRate)
            (timeToCoefficient expf p.release ef.sampleRate) ef.envelope
            (decibelsToGain p.threshold) xs xs.length,
            timeToCoefficient expf p.attack ef.sampleRate,
            timeToCoefficient expf p.release ef.sampleRate, ef.sampleRate⟩ := by
  have h := processBlock_channel (specFollower expf) decibelsToGain channels p st j ef xs
    hj hf hb hlen
  have hrun := specRun_claimEnvelope expf (decibelsToGain p.threshold) xs
    (ef.setCoef expf p.attack p.release)
  simp only [EnvelopeFollower.setCoef, EnvelopeFollower.setCoefficients] at hrun
  refine ⟨h.2.1, ⟨_, h.2.1, ?_, ?_⟩, ?_⟩
  · simp [processChannel, followerRun_length]
  · intro n x hx
    have hn : n < xs.length := (List.getElem?_eq_some.1 hx).1
    have hr := hrun.2 n hn
    simp only [processChannel, List.getElem?_zipWith, specFollower, EnvelopeFollower.setCoef,
      EnvelopeFollower.setCoefficients] at hr ⊢
    rw [hr, hx]
    rfl
  · rw [h.1]
    exact congrArg some hrun.1

/-- C2.  With attack = 0 ms, release = 0 ms, mix = 1 and volume gain 1, for
every threshold gain, every follower state and every input block, a processed
channel is hard gated: each output sample is the input sample when
`|sample| > thresholdGain` and `0` otherwise. -/
theorem processBlock_hard_gate [LinearOrderedField K] (expf decibelsToGain : K → K)
    (channels : Nat) (p : Params K) (st : List (EnvelopeFollower K) × AudioBuffer K)
    (j : Nat) (ef : EnvelopeFollower K) (xs : List K)
    (hattack : p.attack = 0) (hrelease : p.release = 0) (hmix : p.mix = 1)
    (hvolume : decibelsToGain p.volume = 1) (hj : j < channels)
    (hf : st.1[j]? = some ef) (hb : st.2.channels[j]? = some xs)
    (hlen : xs.length = st.2.numSamples) :
    (processBlock (specFollower expf) decibelsToGain channels p st).2.channels[j]?
      = some (xs.map (fun x => if |x| > decibelsToGain p.threshold then x else 0)) := by
  have h := processBlock_channel (specFollower expf) decibelsToGain channels p st j ef xs
    hj hf hb hlen
  rw [h.2.1]
  congr 1
  have hz := specRun_zero_coef expf (xs.map (gateTarget (decibelsToGain p.threshold)))
    ((specFollower expf).setCoef ef p.attack p.release)
    (by simp [specFollower, EnvelopeFollower.setCoef, EnvelopeFollower.setCoefficients,
      timeToCoefficient, hattack])
    (by simp [specFollower, EnvelopeFollower.setCoef, EnvelopeFollower.setCoefficients,
      timeToCoefficient, hrelease])
  simp only [processChannel, hz, hmix, hvolume, zipWith_target_self]

/-- C6.  The envelope stays in [0,1].  For a follower whose attack and release
coefficients lie in [0,1) and whose envelope lies in [0,1], and every finite
sequence of targets drawn from {0, 1}, every value returned by `process` lies in
[0,1], and so does the envelope left behind.  In particular, when `f` is a
channel's follower right after the `setCoef` call of `processBlock`, the
channel's output is blended from gate envelopes that all lie in [0,1]. -/
theorem envelope_in_unit_interval [LinearOrderedField K] (expf : K → K)
    (f : EnvelopeFollower K) (ts : List K)
    (hac : 0 ≤ f.attackCoef ∧ f.attackCoef < 1) (hrc : 0 ≤ f.releaseCoef ∧ f.releaseCoef < 1)
    (he : 0 ≤ f.envelope ∧ f.envelope ≤ 1) (hts : ∀ t ∈ ts, t = 0 ∨ t = 1) :
    (∀ v ∈ (followerRun (specFollower expf) f ts).2, 0 ≤ v ∧ v ≤ 1)
      ∧ (0 ≤ (followerRun (specFollower expf) f ts).1.envelope
        ∧ (followerRun (specFollower expf) f ts).1.envelope ≤ 1)
      ∧ ∀ (decibelsToGain : K → K) (channels : Nat) (p : Params K)
          (st : List (EnvelopeFollower K) × AudioBuffer K) (j : Nat)
          (ef : EnvelopeFollower K) (xs : List K),
          j < channels → st.1[j]? = some ef → st.2.channels[j]? = some xs →
          xs.length = st.2.numSamples → ef.setCoef expf p.attack p.release = f →
          ∃ gateVolumes : List K,
            gateVolumes = (followerRun (specFollower expf) f
              (xs.map (fun x => if |x| > decibelsToGain p.threshold then 1 else 0))).2
            ∧ (processBlock (specFollower expf) decibelsToGain channels p st).2.channels[j]?
              = some (List.zipWith
                  (fun e x => decibelsToGain p.volume * ((p.mix * e + (1 - p.mix)) * x))
                  gateVolumes xs)
            ∧ gateVolumes.length = xs.length
            ∧ ∀ e ∈ gateVolumes, 0 ≤ e ∧ e ≤ 1 := by
  have h := specRun_unit_interval expf ts f hac hrc he hts
  refine ⟨h.1, ⟨h.2.1, h.2.2⟩, ?_⟩
  intro decibelsToGain channels p st j ef xs hj hf hb hlen hset
  refine ⟨_, rfl, ?_, ?_, ?_⟩
  · rw [(processBlock_channel (specFollower expf) decibelsToGain channels p st j ef xs
      hj hf hb hlen).2.1, ← hset]
    rfl
  · rw [followerRun_length, List.length_map]
  · exact (specRun_unit_interval expf _ f hac hrc he
      (map_target_mem (decibelsToGain p.threshold) xs)).1

/-! ## Claims about the follower of the specification -/

/-- C7.  After `setCoefficients` with attack = 0 ms the attack coefficient is
exactly 0 (no division by zero) and `process(1.0)` returns exactly 1.0 in one
call from any current envelope value; after `setCoefficients` with
release = 0 ms the release coefficient is exactly 0 and `process(0.0)` returns
exactly 0.0 in one call from any current envelope value.  The envelope ranges
over [0,1] (section 3); the attack half is proved for every envelope value up to
1 and the release half for every envelope value from 0. -/
theorem zero_time_snaps [LinearOrderedField K] (expf : K → K) (f : EnvelopeFollower K)
    (attackMs releaseMs sampleRate : K) :
    (f.setCoefficients expf 0 releaseMs sampleRate).attackCoef = 0
      ∧ (f.envelope ≤ 1 →
          ((f.setCoefficients expf 0 releaseMs sampleRate).process 1).2 = 1
          ∧ ((f.setCoefficients expf 0 releaseMs sampleRate).process 1).1.envelope = 1)
      ∧ (f.setCoefficients expf attackMs 0 sampleRate).releaseCoef = 0
      ∧ (0 ≤ f.envelope →
          ((f.setCoefficients expf attackMs 0 sampleRate).process 0).2 = 0
          ∧ ((f.setCoefficients expf attackMs 0 sampleRate).process 0).1.envelope = 0) := by
  have h1 : f.envelope ≤ 1 →
      ((f.setCoefficients expf 0 releaseMs sampleRate).process 1).2 = 1 := by
    intro he
    simp only [EnvelopeFollower.process, EnvelopeFollower.setCoefficients,
      timeToCoefficient_zero]
    by_cases h : (1 : K) > f.envelope
    · rw [if_pos h]; simp
    · rw [if_neg h]
      have h1 : f.envelope = 1 := le_antisymm he (not_lt.1 h)
      rw [h1]; simp
  have h0 : 0 ≤ f.envelope →
      ((f.setCoefficients expf attackMs 0 sampleRate).process 0).2 = 0 := by
    intro he
    simp only [EnvelopeFollower.process, EnvelopeFollower.setCoefficients,
      timeToCoefficient_zero]
    rw [if_neg (not_lt.2 he)]
    simp
  exact ⟨timeToCoefficient_zero expf sampleRate, fun he => ⟨h1 he, h1 he⟩,
    timeToCoefficient_zero expf sampleRate, fun he => ⟨h0 he, h0 he⟩⟩

/-- Instance of C7 on the rationals: from envelope 1/4, zero attack
snaps to 1 and zero release snaps to 0. -/
theorem zero_time_snaps_witness :
    ((EnvelopeFollower.mk (1 / 4) 0 0 48000 : EnvelopeFollower ℚ).setCoefficients
        (fun x => 1 / (1 - x)) 0 100 48000).attackCoef = 0
      ∧ (((EnvelopeFollower.mk (1 / 4) 0 0 48000 : EnvelopeFollower ℚ).setCoefficients
        (fun x => 1 / (1 - x)) 0 100 48000).process 1).2 = 1
      ∧ ((EnvelopeFollower.mk (1 / 4) 0 0 48000 : EnvelopeFollower ℚ).setCoefficients
        (fun x => 1 / (1 - x)) 10 0 48000).releaseCoef = 0
      ∧ (((EnvelopeFollower.mk (1 / 4) 0 0 48000 : EnvelopeFollower ℚ).setCoefficients
        (fun x => 1 / (1 - x)) 10 0 48000).process 0).2 = 0 :=
  have h := zero_time_snaps (fun x : ℚ => 1 / (1 - x)) (EnvelopeFollower.mk (1 / 4) 0 0 48000)
    10 100 48000
  ⟨h.1, (h.2.1 (by norm_num)).1, h.2.2.1, (h.2.2.2 (by norm_num)).1⟩

/-- C9.  Follower state persists across blocks and the per-block `setCoef` call
does not disturb it: for every parameter snapshot, follower state and sample
sequences `xa`, `xb` on a processed channel `j`, processing a block with `xa` and
then a block with `xb` leaves the same follower on channel `j` and the same
output samples as processing one block with `xa ++ xb`; and a block of 0 samples
changes neither the buffer nor any envelope value. -/
theorem blocks_concatenate [LinearOrderedField K] (expf decibelsToGain : K → K)
    (channels : Nat) (p : Params K) (fs : List (EnvelopeFollower K))
    (A B C E : AudioBuffer K) (j : Nat) (ef : EnvelopeFollower K) (xa xb : List K)
    (hj : j < channels) (hf : fs[j]? = some ef)
    (hA : A.channels[j]? = some xa) (hAlen : xa.length = A.numSamples)
    (hB : B.channels[j]? = some xb) (hBlen : xb.length = B.numSamples)
    (hC : C.channels[j]? = some (xa ++ xb)) (hClen : C.numSamples = A.numSamples + B.numSamples)
    (hE : E.numSamples = 0) :
    (processBlock (specFollower expf) decibelsToGain channels p (fs, C)).1[j]?
        = (processBlock (specFollower expf) decibelsToGain channels p
            ((processBlock (specFollower expf) decibelsToGain channels p (fs, A)).1, B)).1[j]?
      ∧ (∃ oa ob,
          (processBlock (specFollower expf) decibelsToGain channels p (fs, A)).2.channels[j]?
            = some oa
          ∧ (processBlock (specFollower expf) decibelsToGain channels p
              ((processBlock (specFollower expf) decibelsToGain channels p (fs, A)).1,
                B)).2.channels[j]? = some ob
          ∧ (processBlock (specFollower expf) decibelsToGain channels p (fs, C)).2.channels[j]?
            = some (oa ++ ob))
      ∧ (processBlock (specFollower expf) decibelsToGain channels p (fs, E)).2 = E
      ∧ (processBlock (specFollower expf) decibelsToGain channels p (fs, E)).1.map
          EnvelopeFollower.envelope = fs.map EnvelopeFollower.envelope := by
  have hCl : (xa ++ xb).length = C.numSamples := by
    rw [List.length_append, hClen, hAlen, hBlen]
  have h1 := processBlock_channel (specFollower expf) decibelsToGain channels p (fs, A) j ef xa
    hj hf hA hAlen
  have h2 := processBlock_channel (specFollower expf) decibelsToGain channels p
    ((processBlock (specFollower expf) decibelsToGain channels p (fs, A)).1, B) j _ xb
    hj h1.1 hB hBlen
  have h3 := processBlock_channel (specFollower expf) decibelsToGain channels p (fs, C) j ef
    (xa ++ xb) hj hf hC hCl
  have happ := processChannel_append expf decibelsToGain p ef xa xb
  refine ⟨?_, ⟨_, _, h1.2.1, h2.2.1, ?_⟩,
    processBlock_no_samples _ decibelsToGain channels p fs E hE,
    processBlock_no_samples_envelope expf decibelsToGain channels p fs E hE⟩
  · rw [h3.1, h2.1, happ]
  · rw [h3.2.1, happ]

/-- C8 (amended).  For every sample rate > 0 and every attack and release time,
after `setCoefficients`: the values returned by repeated `process(1.0)` calls
starting from envelope 0 never decrease and never exceed 1.0, and they are all
exactly 1.0 when attack = 0 ms; the values returned by repeated `process(0.0)`
calls starting from envelope 1 never increase and never fall below 0.0, and they
are all exactly 0.0 when release = 0 ms.  The exponential is any function with
values in [0,1] on negative arguments.  Strict monotonicity and the limit are
left out: they depend on how the arithmetic rounds. -/
theorem attack_release_monotone [LinearOrderedField K] (expf : K → K)
    (hexp : ∀ x, x < 0 → 0 ≤ expf x ∧ expf x ≤ 1) (sampleRate attackMs releaseMs : K)
    (hsr : 0 < sampleRate) (f g : EnvelopeFollower K) (hf : f.envelope = 0)
    (hg : g.envelope = 1) (n : Nat) :
    List.Chain (· ≤ ·) 0
        (followerRun (specFollower expf)
          (f.setCoefficients expf attackMs releaseMs sampleRate) (List.replicate n 1)).2
      ∧ (∀ v ∈ (followerRun (specFollower expf)
          (f.setCoefficients expf attackMs releaseMs sampleRate) (List.replicate n 1)).2,
          v ≤ 1)
      ∧ (attackMs = 0 →
          (followerRun (specFollower expf)
            (f.setCoefficients expf attackMs releaseMs sampleRate) (List.replicate n 1)).2
            = List.replicate n 1)
      ∧ List.Chain (· ≥ ·) 1
        (followerRun (specFollower expf)
          (g.setCoefficients expf attackMs releaseMs sampleRate) (List.replicate n 0)).2
      ∧ (∀ v ∈ (followerRun (specFollower expf)
          (g.setCoefficients expf attackMs releaseMs sampleRate) (List.replicate n 0)).2,
          0 ≤ v)
      ∧ (releaseMs = 0 →
          (followerRun (specFollower expf)
            (g.setCoefficients expf attackMs releaseMs sampleRate) (List.replicate n 0)).2
            = List.replicate n 0) := by
  have ha := timeToCoefficient_unit expf hexp attackMs sampleRate hsr
  have hr := timeToCoefficient_unit expf hexp releaseMs sampleRate hsr
  have h1 := specRun_ones_chain expf n (f.setCoefficients expf attackMs releaseMs sampleRate)
    ha (by show f.envelope ≤ 1; rw [hf]; exact zero_le_one)
  have h0 := specRun_zeros_chain expf n (g.setCoefficients expf attackMs releaseMs sampleRate)
    hr (by show 0 ≤ g.envelope; rw [hg]; exact zero_le_one)
  have e1 : (f.setCoefficients expf attackMs releaseMs sampleRate).envelope = 0 := hf
  have e0 : (g.setCoefficients expf attackMs releaseMs sampleRate).envelope = 1 := hg
  rw [e1] at h1
  rw [e0] at h0
  refine ⟨h1.1, h1.2, ?_, h0.1, h0.2, ?_⟩
  · intro hz
    apply specRun_ones_zero_coef
    · show timeToCoefficient expf attackMs sampleRate = 0
      rw [hz, timeToCoefficient_zero]
    · rw [e1]; exact zero_le_one
  · intro hz
    apply specRun_zeros_zero_coef
    · show timeToCoefficient expf releaseMs sampleRate = 0
      rw [hz, timeToCoefficient_zero]
    · rw [e0]; exact zero_le_one

/-- C8, as stated, fails at attack = 0 ms and at release = 0 ms.  With the real
exponential and sample rate 48000, after `setCoefficients(0, 100)` the first two
values returned by `process(1.0)` from envelope 0 are 1.0 and 1.0, and after
`setCoefficients(10, 0)` the first two values returned by `process(0.0)` from
envelope 1 are 0.0 and 0.0: neither sequence is strictly monotone. -/
theorem zero_time_not_strictly_monotone :
    ¬ List.Chain' (· < ·)
        (followerRun (specFollower Real.exp)
          ((EnvelopeFollower.mk 0 0 0 48000 : EnvelopeFollower ℝ).setCoefficients
            Real.exp 0 100 48000) [1, 1]).2
      ∧ ¬ List.Chain' (· > ·)
        (followerRun (specFollower Real.exp)
          ((EnvelopeFollower.mk 1 0 0 48000 : EnvelopeFollower ℝ).setCoefficients
            Real.exp 10 0 48000) [0, 0]).2 := by
  constructor
  · have h := specRun_ones_zero_coef Real.exp 2
      ((EnvelopeFollower.mk 0 0 0 48000 : EnvelopeFollower ℝ).setCoefficients
        Real.exp 0 100 48000) (timeToCoefficient_zero _ _) zero_le_one
    simp only [List.replicate] at h
    rw [h]
    simp
  · have h := specRun_zeros_zero_coef Real.exp 2
      ((EnvelopeFollower.mk 1 0 0 48000 : EnvelopeFollower ℝ).setCoefficients
        Real.exp 10 0 48000) (timeToCoefficient_zero _ _) zero_le_one
    simp only [List.replicate] at h
    rw [h]
    simp

/-- C10 (amended).  For every attack coefficient in [0,1) and every starting
envelope value in [0,1], repeated blocks of input whose magnitude is above the
threshold gain on a processed channel never take the envelope above 1.0 (no
overshoot) and never decrease it (no oscillation): after every further block the
envelope is at least what it was and at most 1.0, and within a block each gate
envelope is at least the one before.  When the attack coefficient is 0 the
envelope is exactly 1.0 after the first sample.  That the envelope reaches
exactly 1.0 is not stated for a coefficient in (0,1). -/
theorem constant_input_no_overshoot [LinearOrderedField K]
    (expf decibelsToGain : K → K) (channels : Nat) (p : Params K)
    (fs : List (EnvelopeFollower K)) (blocks : List (AudioBuffer K)) (b : AudioBuffer K)
    (j : Nat) (ef : EnvelopeFollower K) (hj : j < channels) (hf : fs[j]? = some ef)
    (hac : 0 ≤ timeToCoefficient expf p.attack ef.sampleRate
      ∧ timeToCoefficient expf p.attack ef.sampleRate < 1)
    (he : 0 ≤ ef.envelope ∧ ef.envelope ≤ 1)
    (hblocks : ∀ b' ∈ blocks ++ [b], ∃ xs, b'.channels[j]? = some xs
      ∧ xs.length = b'.numSamples ∧ ∀ x ∈ xs, |x| > decibelsToGain p.threshold) :
    (∃ g g',
        (processBlocks (specFollower expf) decibelsToGain channels p fs blocks).1[j]? = some g
        ∧ (processBlocks (specFollower expf) decibelsToGain channels p fs
            (blocks ++ [b])).1[j]? = some g'
        ∧ ef.envelope ≤ g.envelope ∧ g.envelope ≤ g'.envelope ∧ g'.envelope ≤ 1
        ∧ (timeToCoefficient expf p.attack ef.sampleRate = 0 → 0 < b.numSamples →
            g'.envelope = 1))
      ∧ (∀ (st : List (EnvelopeFollower K) × AudioBuffer K) (h : EnvelopeFollower K)
          (xs : List K), st.1[j]? = some h → st.2.channels[j]? = some xs →
          xs.length = st.2.numSamples → (∀ x ∈ xs, |x| > decibelsToGain p.threshold) →
          h.sampleRate = ef.sampleRate → 0 ≤ h.envelope → h.envelope ≤ 1 →
          (processBlock (specFollower expf) decibelsToGain channels p st).2.channels[j]?
              = some (List.zipWith
                (fun e x => decibelsToGain p.volume * ((p.mix * e + (1 - p.mix)) * x))
                (followerRun (specFollower expf) (h.setCoef expf p.attack p.release)
                  (List.replicate xs.length 1)).2 xs)
            ∧ List.Chain (· ≤ ·) h.envelope
              (followerRun (specFollower expf) (h.setCoef expf p.attack p.release)
                (List.replicate xs.length 1)).2
            ∧ ∀ v ∈ (followerRun (specFollower expf) (h.setCoef expf p.attack p.release)
                (List.replicate xs.length 1)).2, v ≤ 1) := by
  obtain ⟨hc0, hc1⟩ := hac
  obtain ⟨he0, he1⟩ := he
  have hpre : ∀ b' ∈ blocks, ∃ xs, b'.channels[j]? = some xs
      ∧ xs.length = b'.numSamples ∧ ∀ x ∈ xs, |x| > decibelsToGain p.threshold :=
    fun b' hb' => hblocks b' (List.mem_append_left _ hb')
  obtain ⟨g, hg, _, hgenv⟩ := processBlocks_above_threshold expf decibelsToGain channels p j
    hj blocks fs ef hf hc0 he1 hpre
  obtain ⟨g', hg', _, hgenv'⟩ := processBlocks_above_threshold expf decibelsToGain channels p j
    hj (blocks ++ [b]) fs ef hf hc0 he1 hblocks
  simp only [List.map_append, List.sum_append, List.map_cons, List.map_nil, List.sum_cons,
    List.sum_nil, add_zero] at hgenv'
  have h1e : 0 ≤ 1 - ef.envelope := by linarith
  have hpN : timeToCoefficient expf p.attack ef.sampleRate
      ^ (blocks.map AudioBuffer.numSamples).sum ≤ 1 := pow_le_one₀ hc0 hc1.le
  have hpN' : timeToCoefficient expf p.attack ef.sampleRate
        ^ ((blocks.map AudioBuffer.numSamples).sum + b.numSamples)
      ≤ timeToCoefficient expf p.attack ef.sampleRate
        ^ (blocks.map AudioBuffer.numSamples).sum :=
    pow_le_pow_of_le_one hc0 hc1.le (Nat.le_add_right _ _)
  have hp0 : 0 ≤ timeToCoefficient expf p.attack ef.sampleRate
        ^ ((blocks.map AudioBuffer.numSamples).sum + b.numSamples) := pow_nonneg hc0 _
  refine ⟨⟨g, g', hg, hg', ?_, ?_, ?_, ?_⟩, ?_⟩
  · rw [hgenv]
    have := mul_le_mul_of_nonneg_right hpN h1e
    linarith
  · rw [hgenv, hgenv']
    have := mul_le_mul_of_nonneg_right hpN' h1e
    linarith
  · rw [hgenv']
    have := mul_nonneg hp0 h1e
    linarith
  · intro hz hb
    rw [hgenv', hz, zero_pow (by omega)]
    simp
  · intro st h xs hfj hbj hlen habove hsr _ hh1
    have hcoef : (0 ≤ (h.setCoef expf p.attack p.release).attackCoef
        ∧ (h.setCoef expf p.attack p.release).attackCoef ≤ 1) := by
      show 0 ≤ timeToCoefficient expf p.attack h.sampleRate
        ∧ timeToCoefficient expf p.attack h.sampleRate ≤ 1
      rw [hsr]
      exact ⟨hc0, hc1.le⟩
    have hch := specRun_ones_chain expf xs.length (h.setCoef expf p.attack p.release) hcoef hh1
    exact ⟨(processBlock_above_threshold expf decibelsToGain channels p st j h xs hj hfj hbj
      hlen habove).2, hch.1, hch.2⟩

/-- C10, as stated, fails: the envelope need not reach exactly 1.0.  With the real
exponential at sample rate 48000, attack = 10 ms (attack coefficient
`exp(-1/480)`, about 0.9979) and starting envelope 0, a block of `n` samples of
value 1/2 above the threshold gain 0.251 leaves the envelope below 1.0 for every
`n`. -/
theorem envelope_stays_below_one :
    ¬ ∃ n : Nat,
      ((processBlock (specFollower Real.exp) (fun d : ℝ => if d = 0 then 1 else 251 / 1000) 1
          ⟨-12, 10, 100, 1, 0⟩
          ([⟨0, 0, 0, 48000⟩], ⟨n, [List.replicate n (1 / 2)]⟩)).1[0]?).map
        EnvelopeFollower.envelope = some 1 := by
  rintro ⟨n, hn⟩
  have hc : (0 : ℝ) < timeToCoefficient Real.exp 10 48000 := by
    simp only [timeToCoefficient]
    norm_num
    exact Real.exp_pos _
  have h := (processBlock_above_threshold Real.exp
    (fun d : ℝ => if d = 0 then 1 else 251 / 1000) 1 ⟨-12, 10, 100, 1, 0⟩
    ([⟨0, 0, 0, 48000⟩], ⟨n, [List.replicate n (1 / 2)]⟩) 0 ⟨0, 0, 0, 48000⟩
    (List.replicate n (1 / 2)) (by decide) rfl rfl (by simp)
    (by
      intro x hx
      rw [List.eq_of_mem_replicate hx]
      norm_num [abs_of_pos])).1
  rw [h] at hn
  simp only [Option.map_some', Option.some.injEq] at hn
  rw [specRun_ones_envelope Real.exp _ _ (le_of_lt hc) zero_le_one] at hn
  have hp : (0 : ℝ) < timeToCoefficient Real.exp 10 48000 ^ (List.replicate n (1 / 2 : ℝ)).length :=
    pow_pos hc _
  simp only [EnvelopeFollower.setCoef, EnvelopeFollower.setCoefficients, sub_zero, mul_one] at hn
  linarith

/-! ## Instances on concrete inputs -/

/-- Instance of C1: one channel, attack 10 ms, release 100 ms, input [1/2, 1/10]
from envelope 0: the outputs are `e_n * x_n` with `e_0 = 1/481` and
`e_1 = 4800/2309281`. -/
theorem processBlock_contract_witness :
    (processBlock (specFollower exampleExp) exampleGain 1 ⟨-12, 10, 100, 1, 0⟩
        ([⟨0, 0, 0, 48000⟩], ⟨2, [[1 / 2, 1 / 10]]⟩)).2.channels[0]?
        = some [1 / 962, 480 / 2309281]
      ∧ (processBlock (specFollower exampleExp) exampleGain 1 ⟨-12, 10, 100, 1, 0⟩
        ([⟨0, 0, 0, 48000⟩], ⟨2, [[1 / 2, 1 / 10]]⟩)).1[0]?
        = some ⟨4800 / 2309281, 480 / 481, 4800 / 4801, 48000⟩ := by
  have h := processBlock_contract exampleExp exampleGain 1 ⟨-12, 10, 100, 1, 0⟩
    ([⟨0, 0, 0, 48000⟩], ⟨2, [[1 / 2, 1 / 10]]⟩) 0 ⟨0, 0, 0, 48000⟩ [1 / 2, 1 / 10]
    (by decide) rfl rfl rfl
  refine ⟨h.1.trans ?_, h.2.2.trans ?_⟩
  · norm_num [followerRun, specFollower, EnvelopeFollower.setCoef,
      EnvelopeFollower.setCoefficients, EnvelopeFollower.process, timeToCoefficient,
      exampleExp, exampleGain, abs_of_pos]
  · norm_num [claimEnvelope, timeToCoefficient, exampleExp, exampleGain, abs_of_pos]

/-- Instance of C2, the scenario of the specification: threshold gain 0.251,
attack = release = 0 ms, mix 1, volume gain 1, input [0.5, 0.1, 0.5, 0.1] gives
[0.5, 0, 0.5, 0]. -/
theorem processBlock_hard_gate_witness :
    (processBlock (specFollower exampleExp) exampleGain 1 ⟨-12, 0, 0, 1, 0⟩
        ([⟨0, 0, 0, 48000⟩], ⟨4, [[1 / 2, 1 / 10, 1 / 2, 1 / 10]]⟩)).2.channels[0]?
      = some [1 / 2, 0, 1 / 2, 0] :=
  (processBlock_hard_gate exampleExp exampleGain 1 ⟨-12, 0, 0, 1, 0⟩
    ([⟨0, 0, 0, 48000⟩], ⟨4, [[1 / 2, 1 / 10, 1 / 2, 1 / 10]]⟩) 0 ⟨0, 0, 0, 48000⟩
    [1 / 2, 1 / 10, 1 / 2, 1 / 10] rfl rfl rfl (by simp [exampleGain]) (by decide)
    rfl rfl rfl).trans
    (by norm_num [exampleGain, abs_of_pos])

/-- Instance of C3: mix 0, volume gain 0.251, input [1/2, -1/10] from envelope 1/3
gives [0.251 * 1/2, 0.251 * (-1/10)]. -/
theorem processBlock_mix_zero_bypass_witness :
    (processBlock (specFollower exampleExp) exampleGain 1 ⟨-12, 10, 100, 0, 6⟩
        ([⟨1 / 3, 0, 0, 48000⟩], ⟨2, [[1 / 2, -1 / 10]]⟩)).2.channels[0]?
      = some ([251 / 2000, -251 / 10000] : List ℚ) := by
  have h := processBlock_mix_zero_bypass (specFollower exampleExp) exampleGain 1
    ⟨-12, 10, 100, 0, 6⟩ ([⟨1 / 3, 0, 0, 48000⟩], ⟨2, [[1 / 2, -1 / 10]]⟩) 0
    ⟨1 / 3, 0, 0, 48000⟩ [1 / 2, -1 / 10] rfl (by decide) rfl rfl rfl
  rw [h]
  norm_num [exampleGain]

/-- Instance of C4: three zero samples, mix 1, from envelope 1/3: the output is
three zeros. -/
theorem processBlock_silence_witness :
    (processBlock (specFollower exampleExp) exampleGain 1 ⟨-12, 10, 100, 1, 6⟩
        ([⟨1 / 3, 0, 0, 48000⟩], ⟨3, [[0, 0, 0]]⟩)).2.channels[0]?
      = some [0, 0, 0] :=
  (processBlock_silence (specFollower exampleExp) exampleGain 1 ⟨-12, 10, 100, 1, 6⟩
    ([⟨1 / 3, 0, 0, 48000⟩], ⟨3, [[0, 0, 0]]⟩) 0 ⟨1 / 3, 0, 0, 48000⟩ [0, 0, 0]
    (by simp) (by norm_num [exampleGain]) (by decide) rfl rfl rfl).1

/-- Instance of C5, the scenario of the specification: channel 1 is silent with
envelope 0; whether channel 0 is loud from envelope 0 or silent from envelope 1,
channel 1 comes out the same, and its envelope is still 0. -/
theorem processBlock_channel_independent_witness :
    ((processBlock (specFollower exampleExp) exampleGain 2 ⟨-12, 10, 100, 1, 0⟩
        ([⟨0, 0, 0, 48000⟩, ⟨0, 0, 0, 48000⟩], ⟨2, [[1 / 2, 1 / 2], [0, 0]]⟩)).1[1]?
        = (processBlock (specFollower exampleExp) exampleGain 2 ⟨-12, 10, 100, 1, 0⟩
          ([⟨1, 0, 0, 44100⟩, ⟨0, 0, 0, 48000⟩], ⟨2, [[0, 0], [0, 0]]⟩)).1[1]?
      ∧ (processBlock (specFollower exampleExp) exampleGain 2 ⟨-12, 10, 100, 1, 0⟩
        ([⟨0, 0, 0, 48000⟩, ⟨0, 0, 0, 48000⟩], ⟨2, [[1 / 2, 1 / 2], [0, 0]]⟩)).2.channels[1]?
        = (processBlock (specFollower exampleExp) exampleGain 2 ⟨-12, 10, 100, 1, 0⟩
          ([⟨1, 0, 0, 44100⟩, ⟨0, 0, 0, 48000⟩], ⟨2, [[0, 0], [0, 0]]⟩)).2.channels[1]?)
      ∧ (processBlock (specFollower exampleExp) exampleGain 2 ⟨-12, 10, 100, 1, 0⟩
        ([⟨0, 0, 0, 48000⟩, ⟨0, 0, 0, 48000⟩], ⟨2, [[1 / 2, 1 / 2], [0, 0]]⟩)).1[1]?
        = some ⟨0, 480 / 481, 4800 / 4801, 48000⟩ := by
  refine ⟨processBlock_channel_independent (specFollower exampleExp) exampleGain 2
    ⟨-12, 10, 100, 1, 0⟩ ([⟨0, 0, 0, 48000⟩, ⟨0, 0, 0, 48000⟩], ⟨2, [[1 / 2, 1 / 2], [0, 0]]⟩)
    ([⟨1, 0, 0, 44100⟩, ⟨0, 0, 0, 48000⟩], ⟨2, [[0, 0], [0, 0]]⟩) 1 rfl rfl rfl, ?_⟩
  rw [(processBlock_channel (specFollower exampleExp) exampleGain 2 ⟨-12, 10, 100, 1, 0⟩
    ([⟨0, 0, 0, 48000⟩, ⟨0, 0, 0, 48000⟩], ⟨2, [[1 / 2, 1 / 2], [0, 0]]⟩) 1 ⟨0, 0, 0, 48000⟩
    [0, 0] (by decide) rfl rfl rfl).1]
  norm_num [processChannel, followerRun, gateTarget, specFollower, EnvelopeFollower.setCoef,
    EnvelopeFollower.setCoefficients, EnvelopeFollower.process, timeToCoefficient,
    exampleExp, exampleGain]

/-- Instance of C6: coefficients 1/2, envelope 0, targets [1, 0, 1]: the returned
values 1/2, 1/4, 5/8 lie in [0,1]. -/
theorem envelope_in_unit_interval_witness :
    (followerRun (specFollower exampleExp) ⟨0, 1 / 2, 1 / 2, 48000⟩ [1, 0, 1]).2
        = [1 / 2, 1 / 4, 5 / 8]
      ∧ ∀ v ∈ (followerRun (specFollower exampleExp) ⟨0, 1 / 2, 1 / 2, 48000⟩ [1, 0, 1]).2,
        0 ≤ v ∧ v ≤ 1 :=
  ⟨by norm_num [followerRun, specFollower, EnvelopeFollower.process],
    (envelope_in_unit_interval exampleExp ⟨0, 1 / 2, 1 / 2, 48000⟩ [1, 0, 1]
      (by norm_num) (by norm_num) (by norm_num) (by simp)).1⟩

/-- Instance of C9: [1/2, 1/10] then [1/2] against [1/2, 1/10, 1/2] in one block,
and an empty block. -/
theorem blocks_concatenate_witness :
    (processBlock (specFollower exampleExp) exampleGain 1 ⟨-12, 10, 100, 1, 0⟩
        ([⟨0, 0, 0, 48000⟩], ⟨3, [[1 / 2, 1 / 10, 1 / 2]]⟩)).1[0]?
        = (processBlock (specFollower exampleExp) exampleGain 1 ⟨-12, 10, 100, 1, 0⟩
            ((processBlock (specFollower exampleExp) exampleGain 1 ⟨-12, 10, 100, 1, 0⟩
              ([⟨0, 0, 0, 48000⟩], ⟨2, [[1 / 2, 1 / 10]]⟩)).1, ⟨1, [[1 / 2]]⟩)).1[0]?
      ∧ (processBlock (specFollower exampleExp) exampleGain 1 ⟨-12, 10, 100, 1, 0⟩
        ([⟨0, 0, 0, 48000⟩], ⟨0, [[]]⟩)).2 = ⟨0, [[]]⟩ :=
  have h := blocks_concatenate exampleExp exampleGain 1 ⟨-12, 10, 100, 1, 0⟩
    [⟨0, 0, 0, 48000⟩] ⟨2, [[1 / 2, 1 / 10]]⟩ ⟨1, [[1 / 2]]⟩ ⟨3, [[1 / 2, 1 / 10, 1 / 2]]⟩
    ⟨0, [[]]⟩ 0 ⟨0, 0, 0, 48000⟩ [1 / 2, 1 / 10] [1 / 2] (by decide) rfl rfl rfl rfl rfl rfl
    rfl rfl
  ⟨h.1, h.2.2.1⟩

/-- Instance of C8 (amended) with the real exponential at sample rate 48000,
attack 10 ms, release 100 ms and three calls: the returned values never decrease
from 0 in the attack phase and never increase from 1 in the release phase. -/
theorem attack_release_monotone_witness :
    List.Chain (· ≤ ·) 0
        (followerRun (specFollower Real.exp)
          ((EnvelopeFollower.mk 0 0 0 48000 : EnvelopeFollower ℝ).setCoefficients
            Real.exp 10 100 48000) (List.replicate 3 1)).2
      ∧ List.Chain (· ≥ ·) 1
        (followerRun (specFollower Real.exp)
          ((EnvelopeFollower.mk 1 0 0 48000 : EnvelopeFollower ℝ).setCoefficients
            Real.exp 10 100 48000) (List.replicate 3 0)).2 :=
  have h := attack_release_monotone Real.exp
    (fun x hx => ⟨(Real.exp_pos x).le, (Real.exp_lt_one_iff.2 hx).le⟩) 48000 10 100
    (by norm_num) (EnvelopeFollower.mk 0 0 0 48000) (EnvelopeFollower.mk 1 0 0 48000) rfl rfl 3
  ⟨h.1, h.2.2.2.1⟩

/-- Instance of C10 (amended): attack coefficient 480/481, envelope 0, a block of
two samples 1/2 and then a block of one sample -1/2, all above the threshold gain
0.251: the envelope after the second block is at least the envelope after the
first and at most 1. -/
theorem constant_input_no_overshoot_witness :
    ∃ g g',
      (processBlocks (specFollower exampleExp) exampleGain 1 ⟨-12, 10, 100, 1, 0⟩
        [⟨0, 0, 0, 48000⟩] [⟨2, [[1 / 2, 1 / 2]]⟩]).1[0]? = some g
      ∧ (processBlocks (specFollower exampleExp) exampleGain 1 ⟨-12, 10, 100, 1, 0⟩
        [⟨0, 0, 0, 48000⟩] ([⟨2, [[1 / 2, 1 / 2]]⟩] ++ [⟨1, [[-1 / 2]]⟩])).1[0]? = some g'
      ∧ 0 ≤ g.envelope ∧ g.envelope ≤ g'.envelope ∧ g'.envelope ≤ 1 := by
  have h := (constant_input_no_overshoot exampleExp exampleGain 1 ⟨-12, 10, 100, 1, 0⟩
    [⟨0, 0, 0, 48000⟩] [⟨2, [[1 / 2, 1 / 2]]⟩] ⟨1, [[-1 / 2]]⟩ 0 ⟨0, 0, 0, 48000⟩
    (by decide) rfl (by norm_num [timeToCoefficient, exampleExp]) (by norm_num)
    (by
      intro b hb
      simp only [List.singleton_append, List.mem_cons, List.mem_singleton, List.not_mem_nil,
        or_false] at hb
      rcases hb with hb | hb
      · subst hb
        exact ⟨[1 / 2, 1 / 2], rfl, rfl, by norm_num [exampleGain, abs_of_pos]⟩
      · subst hb
        exact ⟨[-1 / 2], rfl, rfl, by norm_num [exampleGain, abs_of_neg]⟩)).1
  obtain ⟨g, g', hg, hg', h1, h2, h3, _⟩ := h
  exact ⟨g, g', hg, hg', h1, h2, h3⟩

end Gate
